import Mathlib

/-!
Shallow embedding of the rx-basis Gaussian basis-set parser and its data
model (src/src/details/angular_momentum.rs, src/src/details/gaussian_exp.rs,
src/src/details/atomic_basis_set.rs, src/src/io/gaussian.rs).

Modelling conventions:
* Rust `usize` is modelled as `Nat`; the `as usize` cast of the `repr(i8)`
  enum value `-1` is modelled by its sign-extended value `2 ^ 64 - 1`.
* `f64` values are modelled as exact decimal numbers (an integer mantissa
  with a power-of-ten exponent), since every literal handled by the claims
  is a finite decimal.  The special literals accepted by the Rust float
  parser (inf, infinity, nan, with any sign or case) have no exact-decimal
  value and are outside the model.
* The fallible line source `Iterator<Item = Result<String, io::Error>>`
  is modelled as `List (Except String String)`, the `String` in the
  `Except.error` case standing for the message of the wrapped failure.
* A Rust index-out-of-range panic is modelled by the distinguished
  outcome `PResult.oob`; an `Err` return is `PResult.error`.
-/

/-- Angular momentum, from src/src/details/angular_momentum.rs.
The Rust enum is `repr(i8)` with `S = 0 .. H = 5` and
`UnsupportedAngularMomentum = -1`. -/
inductive AngularMomentum where
  | S
  | P
  | D
  | F
  | G
  | H
  | UnsupportedAngularMomentum
deriving DecidableEq

/-- `impl From<char> for AngularMomentum`: case-insensitive letter codes,
everything else maps to `UnsupportedAngularMomentum`. -/
def AngularMomentum.fromChar (ch : Char) : AngularMomentum :=
  if ch = 'S' ∨ ch = 's' then .S
  else if ch = 'P' ∨ ch = 'p' then .P
  else if ch = 'D' ∨ ch = 'd' then .D
  else if ch = 'F' ∨ ch = 'f' then .F
  else if ch = 'G' ∨ ch = 'g' then .G
  else if ch = 'H' ∨ ch = 'h' then .H
  else .UnsupportedAngularMomentum

/-- `impl From<usize> for AngularMomentum`: indices 0..5, everything else
maps to `UnsupportedAngularMomentum`. -/
def AngularMomentum.fromIndex (us : Nat) : AngularMomentum :=
  match us with
  | 0 => .S
  | 1 => .P
  | 2 => .D
  | 3 => .F
  | 4 => .G
  | 5 => .H
  | _ => .UnsupportedAngularMomentum

/-- The value of `angular_momentum as usize` in
`AtomicBasisSet::add_segmented_contraction`.  The discriminant of
`UnsupportedAngularMomentum` is `-1 : i8`, which the `as usize` cast
sign-extends to `2 ^ 64 - 1` on a 64-bit target. -/
def AngularMomentum.asUsize : AngularMomentum → Nat
  | .S => 0
  | .P => 1
  | .D => 2
  | .F => 3
  | .G => 4
  | .H => 5
  | .UnsupportedAngularMomentum => 2 ^ 64 - 1

/-- Exact-decimal model of an `f64` value: `mant * 10 ^ exp`. -/
structure Dec where
  mant : Int
  exp : Int
deriving DecidableEq

/-- Value equality of two exact decimals (representations with different
exponents can denote the same number). -/
def Dec.veq (a b : Dec) : Prop :=
  a.mant * 10 ^ (a.exp - min a.exp b.exp).toNat
    = b.mant * 10 ^ (b.exp - min a.exp b.exp).toNat

instance (a b : Dec) : Decidable (a.veq b) := by
  unfold Dec.veq
  infer_instance

/-- `GaussianPrimitive` from src/src/details/gaussian_exp.rs: a
(coefficient, exponental) pair (field names as in the source). -/
structure GaussianPrimitive where
  coefficient : Dec
  exponental : Dec
deriving DecidableEq

/-- `SegmentedContraction` from src/src/details/gaussian_exp.rs: an ordered
sequence of Gaussian primitives. -/
structure SegmentedContraction where
  prims : List GaussianPrimitive
deriving DecidableEq

def SegmentedContraction.new : SegmentedContraction := ⟨[]⟩

/-- `SegmentedContraction::add_primitive`: appends a primitive. -/
def SegmentedContraction.add_primitive (sc : SegmentedContraction)
    (p : GaussianPrimitive) : SegmentedContraction :=
  ⟨sc.prims ++ [p]⟩

/-- `SegmentedContraction::add`: appends a (coefficient, exponental) pair. -/
def SegmentedContraction.add (sc : SegmentedContraction)
    (coefficient exponental : Dec) : SegmentedContraction :=
  sc.add_primitive ⟨coefficient, exponental⟩

/-- `SegmentedContraction::get_num_primitives`. -/
def SegmentedContraction.get_num_primitives (sc : SegmentedContraction) : Nat :=
  sc.prims.length

/-- `SegmentedContraction::get`: bounds-checked lookup. -/
def SegmentedContraction.get (sc : SegmentedContraction) (index : Nat) :
    Option GaussianPrimitive :=
  sc.prims[index]?

/-- `AtomicBasisSet` from src/src/details/atomic_basis_set.rs: a
`Vec<Vec<SegmentedContraction>>` indexed by angular-momentum code. -/
structure AtomicBasisSet where
  slots : List (List SegmentedContraction)
deriving DecidableEq

def AtomicBasisSet.new : AtomicBasisSet := ⟨[]⟩

/-- `AtomicBasisSet::get_num_contracted_functions`. -/
def AtomicBasisSet.get_num_contracted_functions (bs : AtomicBasisSet) : Nat :=
  (bs.slots.map List.length).sum

/-- `AtomicBasisSet::get_num_gaussian_primitives`. -/
def AtomicBasisSet.get_num_gaussian_primitives (bs : AtomicBasisSet) : Nat :=
  (bs.slots.map fun scs =>
    (scs.map SegmentedContraction.get_num_primitives).sum).sum

/-- `AtomicBasisSet::get_highest_angular_momentum`. -/
def AtomicBasisSet.get_highest_angular_momentum (bs : AtomicBasisSet) :
    AngularMomentum :=
  if bs.slots.length = 0 then .UnsupportedAngularMomentum
  else .fromIndex (bs.slots.length - 1)

/-- The effect of the slot-growing loop
`while self.0.len() <= angular_momentum_num { self.0.push(vec![]) }`:
pad with empty slots until the length exceeds `idx`. -/
def padSlots (l : List (List SegmentedContraction)) (idx : Nat) :
    List (List SegmentedContraction) :=
  l ++ List.replicate (idx + 1 - l.length) []

/-- `AtomicBasisSet::add_segmented_contraction`: grow the slot array to
cover the momentum index, then push the contraction at that index. -/
def AtomicBasisSet.add_segmented_contraction (bs : AtomicBasisSet)
    (angular_momentum : AngularMomentum)
    (segmented_contraction : SegmentedContraction) : AtomicBasisSet :=
  let idx := angular_momentum.asUsize
  let padded := padSlots bs.slots idx
  ⟨padded.set idx (padded.getD idx [] ++ [segmented_contraction])⟩

/-- `SegmentedContractionIntoIterator::next`, with the inner
`while self.angular_momentum_index < len` loop unrolled on an explicit
fuel so the definition is structurally recursive.  A call with
`fuel ≥ slots.length + 1 - ai` behaves like the unbounded loop. -/
def iterNextFuel (bs : AtomicBasisSet) :
    Nat → Nat → Nat →
    Option ((AngularMomentum × SegmentedContraction) × Nat × Nat)
  | 0, _, _ => none
  | fuel + 1, ai, si =>
    match bs.slots[ai]? with
    | none => none
    | some scgtos =>
      match scgtos[si]? with
      | some sc => some ((AngularMomentum.fromIndex ai, sc), ai, si + 1)
      | none => iterNextFuel bs fuel (ai + 1) 0

/-- One `next()` step of the iterator from state (ai, si). -/
def iterNext (bs : AtomicBasisSet) (ai si : Nat) :
    Option ((AngularMomentum × SegmentedContraction) × Nat × Nat) :=
  iterNextFuel bs (bs.slots.length + 1 - ai) ai si

/-- Repeatedly calling `next()` until it yields `None`, on an explicit
fuel; `fuel` larger than the number of remaining items drains the
iterator completely. -/
def iterDrain (bs : AtomicBasisSet) :
    Nat → Nat → Nat → List (AngularMomentum × SegmentedContraction)
  | 0, _, _ => []
  | fuel + 1, ai, si =>
    match iterNext bs ai si with
    | none => []
    | some (item, st) => item :: iterDrain bs fuel st.1 st.2

/-- The full sequence produced by `(&AtomicBasisSet).into_iter()`: the
iterator starts at state (0, 0) and is drained to exhaustion. -/
def AtomicBasisSet.iterate (bs : AtomicBasisSet) :
    List (AngularMomentum × SegmentedContraction) :=
  iterDrain bs (bs.get_num_contracted_functions + 1) 0 0

/-- `BasisSetAssignmentType` from src/src/io/gaussian.rs. -/
inductive BasisSetAssignmentType where
  | Atom (label : String)
  | ParticleIndex (idx : Int)
deriving DecidableEq

/-- Outcome of a fallible parser step: `Ok`, `Err` with a message, or a
Rust index-out-of-range panic. -/
inductive PResult (α : Type) where
  | ok (val : α)
  | error (msg : String)
  | oob
deriving DecidableEq

instance {e a : Type} [DecidableEq e] [DecidableEq a] :
    DecidableEq (Except e a)
  | .error x, .error y =>
    if h : x = y then .isTrue (by rw [h])
    else .isFalse (by intro hc; cases hc; exact h rfl)
  | .error _, .ok _ => .isFalse (fun hc => Except.noConfusion hc)
  | .ok _, .error _ => .isFalse (fun hc => Except.noConfusion hc)
  | .ok x, .ok y =>
    if h : x = y then .isTrue (by rw [h])
    else .isFalse (by intro hc; cases hc; exact h rfl)

/-- Whitespace tokenisation (Rust `str::split_whitespace`): maximal runs
of non-whitespace characters, in order.  The accumulator holds the
current token reversed. -/
def splitWsAux : List Char → List Char → List (List Char)
  | [], cur => if cur = [] then [] else [cur.reverse]
  | c :: rest, cur =>
    if c.isWhitespace then
      if cur = [] then splitWsAux rest []
      else cur.reverse :: splitWsAux rest []
    else splitWsAux rest (c :: cur)

def splitWhitespace (s : String) : List (List Char) :=
  splitWsAux s.data []

/-- Does `s` start with the pattern `p` (Rust `str::starts_with`)? -/
def startsWithL : List Char → List Char → Bool
  | _, [] => true
  | [], _ :: _ => false
  | c :: cs, p :: ps => c = p && startsWithL cs ps

/-- `string.starts_with("!") || string.trim().len() == 0`: the line is a
comment or blank (trimming to length zero means every character is
whitespace). -/
def isSkippable (s : String) : Bool :=
  startsWithL s.data ['!'] || s.data.all Char.isWhitespace

/-- `string.starts_with("****")`: the end-of-block sentinel. -/
def isSentinel (s : String) : Bool :=
  startsWithL s.data ['*', '*', '*', '*']

/-- `read_single_basis_set_line`: skip comments and blank lines, stop at
the sentinel or the end of the stream (returning `none`), surface the
first significant line, and turn a line-source failure into a parse
error carrying the failure message.  Also returns the unconsumed rest of
the stream. -/
def read_single_basis_set_line :
    List (Except String String) →
    Except String (Option String) × List (Except String String)
  | [] => (.ok none, [])
  | .error e :: rest => (.error e, rest)
  | .ok s :: rest =>
    if isSkippable s then read_single_basis_set_line rest
    else if isSentinel s then (.ok none, rest)
    else (.ok (some s), rest)

/-- Digits at the head of the character list: returns (value, number of
digits consumed, rest). -/
def takeDigits : List Char → Nat × Nat × List Char
  | [] => (0, 0, [])
  | c :: rest =>
    if c.isDigit then
      let (v, n, r) := takeDigits rest
      ((c.toNat - 48) * 10 ^ n + v, n + 1, r)
    else (0, 0, c :: rest)

/-- An unsigned run of one or more digits spanning the whole token. -/
def parseAllDigits (cs : List Char) : Option Nat :=
  match takeDigits cs with
  | (v, n, r) => if n = 0 ∨ r ≠ [] then none else some v

/-- A signed integer token: optional sign followed by digits only. -/
def parseSignedDigits : List Char → Option Int
  | [] => none
  | '+' :: rest => (parseAllDigits rest).map Int.ofNat
  | '-' :: rest => (parseAllDigits rest).map fun v => -(v : Int)
  | cs => (parseAllDigits cs).map Int.ofNat

/-- Rust `str::parse::<i32>`: signed decimal digits whose value fits in
a 32-bit signed integer. -/
def parseI32 (cs : List Char) : Option Int :=
  match parseSignedDigits cs with
  | none => none
  | some v => if -(2 ^ 31) ≤ v ∧ v < 2 ^ 31 then some v else none

/-- Optional exponent suffix of a float token: empty means exponent 0,
otherwise `e`/`E`, an optional sign and at least one digit; anything
else rejects the token. -/
def parseExpPart : List Char → Option Int
  | [] => some 0
  | c :: rest =>
    if c = 'e' ∨ c = 'E' then parseSignedDigits rest else none

/-- The unsigned part of Rust `str::parse::<f64>` on a finite decimal:
digits, an optional fractional part (at least one digit on either side
of the point), and an optional exponent.  The special literals inf,
infinity and nan are outside the exact-decimal model. -/
def parseFltCore (cs : List Char) : Option Dec :=
  let (ip, ic, r1) := takeDigits cs
  match r1 with
  | '.' :: r2 =>
    let (fp, fc, r3) := takeDigits r2
    if ic = 0 ∧ fc = 0 then none
    else (parseExpPart r3).map fun e =>
      ⟨((ip * 10 ^ fc + fp : Nat) : Int), e - (fc : Int)⟩
  | r1' =>
    if ic = 0 then none
    else (parseExpPart r1').map fun e => ⟨(ip : Int), e⟩

/-- Rust `str::parse::<f64>` on a token, with sign. -/
def parseFlt : List Char → Option Dec
  | '+' :: rest => parseFltCore rest
  | '-' :: rest => (parseFltCore rest).map fun d => ⟨-d.mant, d.exp⟩
  | cs => parseFltCore cs

/-- `line.split_whitespace().map(|i| i.parse::<f64>()).collect()`:
all tokens must parse; the first failure rejects the line. -/
def parseFloatList : List (List Char) → Option (List Dec)
  | [] => some []
  | t :: ts =>
    match parseFlt t with
    | none => none
    | some d => (parseFloatList ts).map fun ds => d :: ds

/-- `parse_floats` from src/src/io/gaussian.rs. -/
def parse_floats : Option String → Except String (List Dec)
  | none => .error "Expecting line of floats"
  | some value_line =>
    match parseFloatList (splitWhitespace value_line) with
    | some value => .ok value
    | none => .error "invalid float literal"

/-- `parse_basis_set_first_line` from src/src/io/gaussian.rs: first
whitespace token of the header; an i32 is a particle index, any other
token is an atom label stored verbatim. -/
def parse_basis_set_first_line :
    Option String → Except String BasisSetAssignmentType
  | none => .error "Bad basis set"
  | some declaration_line =>
    match splitWhitespace declaration_line with
    | [] => .error "Expect atom/particle index"
    | value :: _ =>
      match parseI32 value with
      | some v => .ok (.ParticleIndex v)
      | none => .ok (.Atom (String.mk value))

/-- `parse_cgto_first_line` from src/src/io/gaussian.rs: the momentum
code token and the primitive count (an i32; a non-integer count is a
parse error). -/
def parse_cgto_first_line :
    Option String → Except String (List Char × Int)
  | none => .error "Expecting CGTO declaration"
  | some declaration_line =>
    match splitWhitespace declaration_line with
    | [] => .error "Expecting angular momentum and number of Gaussian primitives"
    | angular_momentum :: rest =>
      match rest with
      | [] => .error "Bad CGTO declaration"
      | value :: _ =>
        match parseI32 value with
        | none => .error "invalid digit found in string"
        | some n => .ok (angular_momentum, n)

/-- UTF-8 encoding of one character, as byte values. -/
def utf8Bytes (c : Char) : List Nat :=
  let n := c.toNat
  if n < 128 then [n]
  else if n < 2048 then [192 + n / 64, 128 + n % 64]
  else if n < 65536 then
    [224 + n / 4096, 128 + (n / 64) % 64, 128 + n % 64]
  else
    [240 + n / 262144, 128 + (n / 4096) % 64, 128 + (n / 64) % 64,
      128 + n % 64]

/-- `angular_momentum_string.as_bytes()` followed by `*ch as char` on
each byte: the code iterates the momentum token byte-wise and lifts each
byte to a character. -/
def momBytes (code : List Char) : List Char :=
  (code.flatMap utf8Bytes).map Char.ofNat

/-- One contraction of a CGTO block: for each primitive line take column
0 as the coefficient and column `index` as the exponental
(`data[gaussian_index][0]` / `data[gaussian_index][index]`); a missing
column is an index-out-of-range panic, modelled by `none`. -/
def buildContraction : List (List Dec) → Nat → Option (List GaussianPrimitive)
  | [], _ => some []
  | row :: rest, index =>
    match row[0]?, row[index]? with
    | some c, some e =>
      (buildContraction rest index).map fun ps => ⟨c, e⟩ :: ps
    | _, _ => none

/-- The per-letter loop of `add_basis_set_cgto`: letter position i uses
exponental column i + 1 and appends the contraction under that letter's
angular momentum. -/
def addCgtoAux (data : List (List Dec)) :
    List Char → Nat → AtomicBasisSet → Option AtomicBasisSet
  | [], _, bs => some bs
  | ch :: rest, index, bs =>
    match buildContraction data index with
    | none => none
    | some prims =>
      addCgtoAux data rest (index + 1)
        (bs.add_segmented_contraction (.fromChar ch) ⟨prims⟩)

/-- `add_basis_set_cgto` from src/src/io/gaussian.rs. -/
def add_basis_set_cgto (bs : AtomicBasisSet) (ams : List Char)
    (data : List (List Dec)) : Option AtomicBasisSet :=
  addCgtoAux data (momBytes ams) 1 bs

/-- The `for _ in 0..count` loop of `read_basis_set`: read and parse
`n` primitive lines, propagating the first error. -/
def read_primitive_lines :
    Nat → List (Except String String) →
    Except String (List (List Dec)) × List (Except String String)
  | 0, items => (.ok [], items)
  | n + 1, items =>
    match read_single_basis_set_line items with
    | (.error e, rest) => (.error e, rest)
    | (.ok opt, rest) =>
      match parse_floats opt with
      | .error m => (.error m, rest)
      | .ok row =>
        match read_primitive_lines n rest with
        | (.error e, rest2) => (.error e, rest2)
        | (.ok rows, rest2) => (.ok (row :: rows), rest2)

/-- The `while !read_result.is_none()` CGTO loop of `read_basis_set`,
on an explicit fuel.  Every iteration consumes at least one stream item,
so any fuel exceeding the stream length behaves like the unbounded
loop; the fuel-exhaustion branch is unreachable from `read_basis_set`. -/
def cgto_loop :
    Nat → AtomicBasisSet → List (Except String String) →
    PResult AtomicBasisSet
  | 0, _, _ => .error "out of fuel"
  | fuel + 1, bs, items =>
    match read_single_basis_set_line items with
    | (.error e, _) => .error e
    | (.ok none, _) => .ok bs
    | (.ok (some line), rest) =>
      match parse_cgto_first_line (some line) with
      | .error e => .error e
      | .ok (ams, n) =>
        match read_primitive_lines n.toNat rest with
        | (.error e, _) => .error e
        | (.ok data, rest2) =>
          match add_basis_set_cgto bs ams data with
          | none => .oob
          | some bs2 => cgto_loop fuel bs2 rest2

/-- `read_basis_set` from src/src/io/gaussian.rs: read the assignment
header, then loop over CGTO blocks until the sentinel or the end of the
stream. -/
def read_basis_set (items : List (Except String String)) :
    PResult (BasisSetAssignmentType × AtomicBasisSet) :=
  match read_single_basis_set_line items with
  | (.error e, _) => .error e
  | (.ok first, rest1) =>
    match parse_basis_set_first_line first with
    | .error e => .error e
    | .ok basis_set_assignment_type =>
      match cgto_loop (items.length + 1) AtomicBasisSet.new rest1 with
      | .error e => .error e
      | .oob => .oob
      | .ok bs => .ok (basis_set_assignment_type, bs)

/-- The canonical 6-311G carbon block, line by line, as in the repository
test `test_load_carbon_basis_set`: comments and blank lines, the header,
one `S 6` CGTO and three `SP` CGTOs with primitive counts 3, 1, 1,
terminated by the `****` sentinel. -/
def carbonLines : List String :=
  [ "",
    "!----------------------------------------------------------------------",
    "! Basis Set Exchange",
    "!   Basis set: 6-311G",
    "!----------------------------------------------------------------------",
    "",
    "C     0",
    "S    6   1.00",
    "   4563.240                  0.00196665",
    "    682.0240                 0.0152306",
    "    154.9730                 0.0761269",
    "     44.45530                0.2608010",
    "     13.02900                0.6164620",
    "      1.827730               0.2210060",
    "SP   3   1.00",
    "     20.96420                0.114660               0.0402487",
    "      4.803310               0.919999               0.237594",
    "      1.459330              -0.00303068             0.815854",
    "SP   1   1.00",
    "      0.4834560              1.000000               1.000000",
    "SP   1   1.00",
    "      0.1455850              1.000000               1.000000",
    "****" ]

/-- The carbon block as an error-free line source. -/
def carbonStream : List (Except String String) :=
  carbonLines.map Except.ok

/-- The assignment target of a successful parse. -/
def assignOf :
    PResult (BasisSetAssignmentType × AtomicBasisSet) →
    Option BasisSetAssignmentType
  | .ok (a, _) => some a
  | _ => none

/-- The basis set produced by parsing the carbon block (the fallback
branches are never taken, as the claim theorem certifies). -/
def carbonParsed : AtomicBasisSet :=
  match read_basis_set carbonStream with
  | .ok (_, bs) => bs
  | _ => AtomicBasisSet.new

/-- A placeholder primitive used as the out-of-range default of list
lookups in concrete statements. -/
def zeroPrim : GaussianPrimitive := ⟨⟨0, 0⟩, ⟨0, 0⟩⟩

/-- C1: parsing the canonical 6-311G carbon block yields assignment
target Atom "C", 7 contracted functions and 16 Gaussian primitives; the
first iterated contraction has momentum S with 6 primitives, its
primitive 2 has coefficient 154.9730 and its primitive 3 has exponent
0.2608010; and iteration is momentum-major and declaration-order-minor:
the S contractions (the S block with 6 primitives, then the S channel of
each SP block, with 3, 1, 1 primitives) followed by the P channels of
the SP blocks with 3, 1, 1 primitives, as the per-contraction leading
coefficients confirm. -/
theorem C1_carbon_block_end_to_end :
    assignOf (read_basis_set carbonStream) = some (.Atom "C")
    ∧ carbonParsed.get_num_contracted_functions = 7
    ∧ carbonParsed.get_num_gaussian_primitives = 16
    ∧ (carbonParsed.iterate.map fun p => (p.1, p.2.get_num_primitives)) =
        [(.S, 6), (.S, 3), (.S, 1), (.S, 1), (.P, 3), (.P, 1), (.P, 1)]
    ∧ ((carbonParsed.iterate.getD 0 (.S, .new)).2.prims.getD 2
        zeroPrim).coefficient.veq ⟨1549730, -4⟩
    ∧ ((carbonParsed.iterate.getD 0 (.S, .new)).2.prims.getD 3
        zeroPrim).exponental.veq ⟨2608010, -7⟩
    ∧ (carbonParsed.iterate.map fun p =>
        (p.2.prims.getD 0 zeroPrim).coefficient) =
        [⟨4563240, -3⟩, ⟨2096420, -5⟩, ⟨4834560, -7⟩, ⟨1455850, -7⟩,
          ⟨2096420, -5⟩, ⟨4834560, -7⟩, ⟨1455850, -7⟩] := by
  decide

/-- The canonical momentum-major, insertion-order-minor flattening of the
slot array, tagging slot `i` with `AngularMomentum.fromIndex i`. -/
def flatSlots : Nat → List (List SegmentedContraction) →
    List (AngularMomentum × SegmentedContraction)
  | _, [] => []
  | i, scs :: rest =>
    (scs.map fun sc => (AngularMomentum.fromIndex i, sc)) ++
      flatSlots (i + 1) rest

/-- The sequence the iterator still has to produce from state (ai, si). -/
def seqFrom (bs : AtomicBasisSet) (ai si : Nat) :
    List (AngularMomentum × SegmentedContraction) :=
  ((bs.slots.getD ai []).drop si).map
      (fun sc => (AngularMomentum.fromIndex ai, sc)) ++
    flatSlots (ai + 1) (bs.slots.drop (ai + 1))

lemma flatSlots_length (slots : List (List SegmentedContraction)) :
    ∀ i, (flatSlots i slots).length = (slots.map List.length).sum := by
  induction slots with
  | nil => intro i; rfl
  | cons s rest ih =>
    intro i
    simp [flatSlots, ih]

lemma flatSlots_prims_sum (slots : List (List SegmentedContraction)) :
    ∀ i, ((flatSlots i slots).map fun p => p.2.get_num_primitives).sum =
      (slots.map fun scs =>
        (scs.map SegmentedContraction.get_num_primitives).sum).sum := by
  induction slots with
  | nil => intro i; rfl
  | cons s rest ih =>
    intro i
    simp [flatSlots, ih, Function.comp_def]

lemma iterNextFuel_stop (bs : AtomicBasisSet) (ai si : Nat)
    (h : bs.slots[ai]? = none) :
    ∀ f, iterNextFuel bs f ai si = none := by
  intro f
  cases f with
  | zero => rfl
  | succ f => simp [iterNextFuel, h]

lemma seqFrom_zero (bs : AtomicBasisSet) (ai : Nat) :
    seqFrom bs ai 0 = flatSlots ai (bs.slots.drop ai) := by
  match h : bs.slots[ai]? with
  | none =>
    have hlen : bs.slots.length ≤ ai := List.getElem?_eq_none_iff.mp h
    have h1 : bs.slots.drop ai = [] := List.drop_eq_nil_of_le hlen
    have h2 : bs.slots.drop (ai + 1) = [] :=
      List.drop_eq_nil_of_le (Nat.le_trans hlen (Nat.le_succ ai))
    simp [seqFrom, h, h1, h2, flatSlots]
  | some scs =>
    have hlt : ai < bs.slots.length := by
      by_contra hc
      rw [List.getElem?_eq_none (by omega)] at h
      exact Option.noConfusion h
    have hdrop : bs.slots.drop ai = bs.slots[ai] :: bs.slots.drop (ai + 1) :=
      List.drop_eq_getElem_cons hlt
    have hval : bs.slots[ai] = scs := by
      have := List.getElem?_eq_getElem hlt
      rw [h] at this
      exact (Option.some.injEq _ _).mp this.symm
    rw [hdrop, hval]
    simp [seqFrom, flatSlots, h]

lemma iterNext_seqFrom (bs : AtomicBasisSet) :
    ∀ k ai si, bs.slots.length ≤ ai + k →
      (iterNext bs ai si = none ∧ seqFrom bs ai si = []) ∨
      (∃ it st1 st2, iterNext bs ai si = some (it, st1, st2) ∧
        seqFrom bs ai si = it :: seqFrom bs st1 st2) := by
  intro k
  induction k with
  | zero =>
    intro ai si h
    left
    have hx : bs.slots[ai]? = none := List.getElem?_eq_none (by omega)
    constructor
    · exact iterNextFuel_stop bs ai si hx _
    · have h2 : bs.slots.drop (ai + 1) = [] :=
        List.drop_eq_nil_of_le (by omega)
      simp [seqFrom, hx, h2, flatSlots]
  | succ k ih =>
    intro ai si h
    match hx : bs.slots[ai]? with
    | none =>
      left
      constructor
      · exact iterNextFuel_stop bs ai si hx _
      · have hlen : bs.slots.length ≤ ai := List.getElem?_eq_none_iff.mp hx
        have h2 : bs.slots.drop (ai + 1) = [] :=
          List.drop_eq_nil_of_le (by omega)
        simp [seqFrom, hx, h2, flatSlots]
    | some scgtos =>
      have hlt : ai < bs.slots.length := by
        by_contra hc
        rw [List.getElem?_eq_none (by omega)] at hx
        exact Option.noConfusion hx
      have hfuel : bs.slots.length + 1 - ai = (bs.slots.length - ai) + 1 := by
        omega
      match hy : scgtos[si]? with
      | some sc =>
        right
        refine ⟨(AngularMomentum.fromIndex ai, sc), ai, si + 1, ?_, ?_⟩
        · rw [iterNext, hfuel]
          simp [iterNextFuel, hx, hy]
        · have hsi : si < scgtos.length := by
            by_contra hc
            rw [List.getElem?_eq_none (by omega)] at hy
            exact Option.noConfusion hy
          have hval : scgtos[si] = sc := by
            have := List.getElem?_eq_getElem hsi
            rw [hy] at this
            exact (Option.some.injEq _ _).mp this.symm
          have hdrop : scgtos.drop si = sc :: scgtos.drop (si + 1) := by
            rw [List.drop_eq_getElem_cons hsi, hval]
          simp [seqFrom, hx, hdrop]
      | none =>
        have hstep : iterNext bs ai si = iterNext bs (ai + 1) 0 := by
          rw [iterNext, hfuel]
          have : bs.slots.length + 1 - (ai + 1) = bs.slots.length - ai := by
            omega
          rw [iterNext, this]
          simp [iterNextFuel, hx, hy]
        have hseq : seqFrom bs ai si = seqFrom bs (ai + 1) 0 := by
          have hsi : scgtos.length ≤ si := List.getElem?_eq_none_iff.mp hy
          have hdrop : scgtos.drop si = [] := List.drop_eq_nil_of_le hsi
          rw [seqFrom_zero]
          simp [seqFrom, hx, hdrop]
        rw [hstep, hseq]
        exact ih (ai + 1) 0 (by omega)

lemma iterDrain_seqFrom (bs : AtomicBasisSet) :
    ∀ f ai si, (seqFrom bs ai si).length < f →
      iterDrain bs f ai si = seqFrom bs ai si := by
  intro f
  induction f with
  | zero => intro ai si h; omega
  | succ f ih =>
    intro ai si h
    rcases iterNext_seqFrom bs bs.slots.length ai si (by omega) with
      ⟨hn, hs⟩ | ⟨it, st1, st2, hn, hs⟩
    · rw [hs]
      simp [iterDrain, hn]
    · rw [hs]
      have hlen : (seqFrom bs st1 st2).length < f := by
        rw [hs] at h
        simpa using Nat.lt_of_succ_lt_succ h
      simp [iterDrain, hn, ih st1 st2 hlen]

/-- Draining the iterator from its initial state produces exactly the
momentum-major, insertion-order-minor flattening of the slot array. -/
lemma iterate_eq_flatSlots (bs : AtomicBasisSet) :
    bs.iterate = flatSlots 0 bs.slots := by
  have hseq : seqFrom bs 0 0 = flatSlots 0 bs.slots := by
    rw [seqFrom_zero, List.drop_zero]
  have hlen : (seqFrom bs 0 0).length < bs.get_num_contracted_functions + 1 := by
    rw [hseq, flatSlots_length]
    exact Nat.lt_succ_self _
  rw [AtomicBasisSet.iterate, iterDrain_seqFrom bs _ 0 0 hlen, hseq]

/-- C6: iterating an AtomicBasisSet yields exactly the momentum-major
(ascending slot index, tagged through from_index), insertion-order-minor
flattening of its slots — a finite sequence fully determined by the
unmutated set, so repeated iteration yields identical sequences — and a
freshly created set yields the empty sequence. -/
theorem C6_iteration_canonical_order :
    (∀ bs : AtomicBasisSet, bs.iterate = flatSlots 0 bs.slots)
    ∧ AtomicBasisSet.new.iterate = [] := by
  constructor
  · exact iterate_eq_flatSlots
  · rfl

/-- C10: the aggregate queries agree with the iterated sequence: the
number of yielded pairs equals get_num_contracted_functions and the sum
of get_num_primitives over the yielded contractions equals
get_num_gaussian_primitives. -/
theorem C10_aggregates_agree_with_iteration :
    ∀ bs : AtomicBasisSet,
      bs.iterate.length = bs.get_num_contracted_functions
      ∧ (bs.iterate.map fun p => p.2.get_num_primitives).sum =
          bs.get_num_gaussian_primitives := by
  intro bs
  rw [iterate_eq_flatSlots]
  exact ⟨flatSlots_length bs.slots 0, flatSlots_prims_sum bs.slots 0⟩

lemma padSlots_length (l : List (List SegmentedContraction)) (k : Nat) :
    (padSlots l k).length = max l.length (k + 1) := by
  simp [padSlots]
  omega

lemma padSlots_getD (l : List (List SegmentedContraction)) (k i : Nat) :
    (padSlots l k).getD i [] = l.getD i [] := by
  rcases Nat.lt_or_ge i l.length with hlt | hge
  · simp [padSlots, List.getElem?_append_left hlt]
  · have h1 : l[i]? = none := List.getElem?_eq_none hge
    simp only [padSlots, List.getD_eq_getElem?_getD,
      List.getElem?_append_right hge, List.getElem?_replicate, h1]
    split <;> rfl

/-- C5: starting from new(), adds with momenta in S..H keep the slot
array dense: one add grows the array exactly to cover the momentum
index (so every level below the maximum observed index is present,
empty levels as empty sequences), appends the contraction at that index
and leaves every other slot unchanged; in particular adding one
contraction at momentum D to an empty set produces slots S and P as
empty sequences and highest_angular_momentum() == D. -/
theorem C5_dense_slot_invariant :
    (∀ (bs : AtomicBasisSet) (am : AngularMomentum)
        (sc : SegmentedContraction),
      am ≠ .UnsupportedAngularMomentum →
      (bs.add_segmented_contraction am sc).slots.length =
          max bs.slots.length (am.asUsize + 1)
      ∧ am.asUsize < (bs.add_segmented_contraction am sc).slots.length
      ∧ (bs.add_segmented_contraction am sc).slots.getD am.asUsize [] =
          bs.slots.getD am.asUsize [] ++ [sc]
      ∧ ∀ i, i ≠ am.asUsize →
          (bs.add_segmented_contraction am sc).slots.getD i [] =
            bs.slots.getD i [])
    ∧ (∀ sc : SegmentedContraction,
        (AtomicBasisSet.new.add_segmented_contraction .D sc).slots =
          [[], [], [sc]]
        ∧ (AtomicBasisSet.new.add_segmented_contraction
            .D sc).get_highest_angular_momentum = .D) := by
  constructor
  · intro bs am sc _
    have hk : am.asUsize < (padSlots bs.slots am.asUsize).length := by
      rw [padSlots_length]
      omega
    refine ⟨?_, ?_, ?_, ?_⟩
    · simp [AtomicBasisSet.add_segmented_contraction, padSlots_length]
    · simp only [AtomicBasisSet.add_segmented_contraction, List.length_set]
      rw [padSlots_length]
      omega
    · simp only [AtomicBasisSet.add_segmented_contraction,
        List.getD_eq_getElem?_getD, List.getElem?_set_self hk]
      have := padSlots_getD bs.slots am.asUsize am.asUsize
      simp only [List.getD_eq_getElem?_getD] at this
      simp [this]
    · intro i hi
      simp only [AtomicBasisSet.add_segmented_contraction,
        List.getD_eq_getElem?_getD, List.getElem?_set_ne (fun a => hi a.symm)]
      have := padSlots_getD bs.slots am.asUsize i
      simp only [List.getD_eq_getElem?_getD] at this
      simp [this]
  · intro sc
    constructor
    · rfl
    · rfl

/-- C5 witness: the theorem applied to an add at momentum D on the empty
set, with the non-Unsupported hypothesis discharged concretely. -/
theorem C5_dense_slot_invariant_witness :
    (AtomicBasisSet.new.add_segmented_contraction .D ⟨[]⟩).slots.length =
      max AtomicBasisSet.new.slots.length (AngularMomentum.D.asUsize + 1) ∧
    (AtomicBasisSet.new.add_segmented_contraction .D ⟨[]⟩).slots =
      [[], [], [⟨[]⟩]] :=
  ⟨(C5_dense_slot_invariant.1 AtomicBasisSet.new .D ⟨[]⟩ (by decide)).1,
    (C5_dense_slot_invariant.2 ⟨[]⟩).1⟩

/-- C7: highest_angular_momentum() is UnsupportedAngularMomentum exactly
when no slot exists, and otherwise maps the last slot index through
from_index — a slot-index property independent of whether that slot
holds any contraction. -/
theorem C7_highest_angular_momentum_slot_index :
    ∀ bs : AtomicBasisSet,
      (bs.slots.length = 0 →
        bs.get_highest_angular_momentum = .UnsupportedAngularMomentum)
      ∧ (bs.slots.length ≠ 0 →
        bs.get_highest_angular_momentum =
          .fromIndex (bs.slots.length - 1)) := by
  intro bs
  constructor
  · intro h
    simp [AtomicBasisSet.get_highest_angular_momentum, h]
  · intro h
    simp [AtomicBasisSet.get_highest_angular_momentum, h]

/-- C7 witness: the empty set reports Unsupported; a set whose three
slots are all empty still reports D (the slot-index property). -/
theorem C7_highest_angular_momentum_witness :
    AtomicBasisSet.new.get_highest_angular_momentum =
      .UnsupportedAngularMomentum ∧
    (⟨[[], [], []]⟩ : AtomicBasisSet).get_highest_angular_momentum =
      .fromIndex 2 :=
  ⟨(C7_highest_angular_momentum_slot_index AtomicBasisSet.new).1 rfl,
    (C7_highest_angular_momentum_slot_index ⟨[[], [], []]⟩).2 (by decide)⟩

/-- One add grows the slot array exactly to cover the momentum index. -/
lemma add_slots_length (bs : AtomicBasisSet) (am : AngularMomentum)
    (sc : SegmentedContraction) :
    (bs.add_segmented_contraction am sc).slots.length =
      max bs.slots.length (am.asUsize + 1) := by
  simp [AtomicBasisSet.add_segmented_contraction, padSlots_length]

/-- C2 (documenting the defect): the `as usize` cast of the `-1 : i8`
discriminant of UnsupportedAngularMomentum yields `2 ^ 64 - 1`, so the
slot-growing loop of add_segmented_contraction must drive the Vec length
all the way to `2 ^ 64`: in the idealised unbounded-memory model the
resulting slot array has length `2 ^ 64`, an allocation no real Vec can
perform (Vec::push panics with a capacity overflow long before), so a
CGTO block with an unsupported momentum letter is never "successfully
recorded" as the claim states. -/
theorem C2_unsupported_momentum_slot_growth :
    AngularMomentum.UnsupportedAngularMomentum.asUsize = 2 ^ 64 - 1
    ∧ (AtomicBasisSet.new.add_segmented_contraction
        .UnsupportedAngularMomentum SegmentedContraction.new).slots.length =
      2 ^ 64 := by
  constructor
  · rfl
  · rw [add_slots_length]
    show max 0 (2 ^ 64 - 1 + 1) = 2 ^ 64
    omega

/-- The concrete stream refuting C3 as stated: momentum code SP needs
three columns per primitive line, but the (all-numeric) primitive line
has a single column. -/
def shortColumnsStream : List (Except String String) :=
  [.ok "C 0", .ok "SP 1", .ok "1.0", .ok "****"]

/-- C3 counterexample: a primitive line with fewer columns than the
momentum-code length + 1 but with only numeric tokens does NOT produce a
parse error as the claim states: `add_basis_set_cgto` indexes
`data[0][1]` on a one-column row, an index-out-of-range access (the
`oob` outcome, distinct from every `error` outcome). -/
theorem C3_counterexample_short_line :
    read_basis_set shortColumnsStream = .oob := by
  decide

lemma parseFloatList_none (ts : List (List Char))
    (h : ∃ t ∈ ts, parseFlt t = none) : parseFloatList ts = none := by
  induction ts with
  | nil => rcases h with ⟨t, ht, _⟩; cases ht
  | cons t ts ih =>
    rcases h with ⟨u, hu, hnone⟩
    rcases List.mem_cons.mp hu with rfl | hmem
    · simp [parseFloatList, hnone]
    · cases hp : parseFlt t with
      | none => simp [parseFloatList, hp]
      | some d => simp [parseFloatList, hp, ih ⟨u, hmem, hnone⟩]

lemma buildContraction_short (data : List (List Dec)) (index : Nat)
    (h : ∃ row ∈ data, row.length < index + 1) :
    buildContraction data index = none := by
  induction data with
  | nil => rcases h with ⟨row, hrow, _⟩; cases hrow
  | cons row rest ih =>
    rcases h with ⟨r, hr, hlen⟩
    rcases List.mem_cons.mp hr with rfl | hmem
    · have hidx : r[index]? = none := List.getElem?_eq_none (by omega)
      cases h0 : r[0]? with
      | none => simp [buildContraction, h0]
      | some c => simp [buildContraction, h0, hidx]
    · cases h0 : row[0]? with
      | none => simp [buildContraction, h0]
      | some c =>
        cases hi : row[index]? with
        | none => simp [buildContraction, h0, hi]
        | some e => simp [buildContraction, h0, hi, ih ⟨r, hmem, hlen⟩]

lemma addCgtoAux_short (data : List (List Dec)) :
    ∀ (letters : List Char) (index : Nat) (bs : AtomicBasisSet),
      letters ≠ [] →
      (∃ row ∈ data, row.length < index + letters.length) →
      addCgtoAux data letters index bs = none := by
  intro letters
  induction letters with
  | nil => intro index bs hne _; exact absurd rfl hne
  | cons ch rest ih =>
    intro index bs _ hrow
    cases rest with
    | nil =>
      have : buildContraction data index = none := by
        apply buildContraction_short
        rcases hrow with ⟨r, hr, hlen⟩
        exact ⟨r, hr, by simpa using hlen⟩
      simp [addCgtoAux, this]
    | cons ch2 rest2 =>
      cases hb : buildContraction data index with
      | none => simp [addCgtoAux, hb]
      | some prims =>
        have hrec := ih (index + 1)
          (bs.add_segmented_contraction (.fromChar ch) ⟨prims⟩)
          (by simp)
          (by rcases hrow with ⟨r, hr, hlen⟩
              exact ⟨r, hr, by simp at hlen ⊢; omega⟩)
        simp only [addCgtoAux, hb]
        simp only [addCgtoAux] at hrec
        exact hrec

/-- C3 amended: during CGTO parsing a primitive line containing a
non-numeric token fails the parse with a parse error; but a primitive
line whose tokens all parse while numbering fewer than the momentum-code
byte length + 1 causes an index-out-of-range access in
add_basis_set_cgto (a panic, modelled `none`), not a parse error. -/
theorem C3_amended_primitive_line_validation :
    (∀ line : String,
      (∃ t ∈ splitWhitespace line, parseFlt t = none) →
      parse_floats (some line) = .error "invalid float literal")
    ∧ (∀ (bs : AtomicBasisSet) (code : List Char) (data : List (List Dec)),
        momBytes code ≠ [] →
        (∃ row ∈ data, row.length < (momBytes code).length + 1) →
        add_basis_set_cgto bs code data = none) := by
  constructor
  · intro line h
    simp [parse_floats, parseFloatList_none (splitWhitespace line) h]
  · intro bs code data hne hrow
    apply addCgtoAux_short data (momBytes code) 1 bs hne
    rcases hrow with ⟨r, hr, hlen⟩
    exact ⟨r, hr, by omega⟩

/-- C3 amended witness: a line with the non-numeric token x is a parse
error; an all-numeric one-column line under momentum code SP is an
out-of-range access. -/
theorem C3_amended_witness :
    parse_floats (some "1.0 x 2.0") = .error "invalid float literal"
    ∧ add_basis_set_cgto AtomicBasisSet.new ['S', 'P'] [[⟨10, -1⟩]] =
        none :=
  ⟨C3_amended_primitive_line_validation.1 "1.0 x 2.0"
      ⟨['x'], by decide, by decide⟩,
    C3_amended_primitive_line_validation.2 AtomicBasisSet.new ['S', 'P']
      [[⟨10, -1⟩]] (by decide) ⟨[⟨10, -1⟩], by decide, by decide⟩⟩

/-- The stream contains a line-source failure, and no sentinel line
occurs before the first failure (so a successful parse cannot terminate
without reaching the failure). -/
def hasErrBeforeSentinel : List (Except String String) → Bool
  | [] => false
  | .error _ :: _ => true
  | .ok s :: rest => !isSentinel s && hasErrBeforeSentinel rest

lemma read_single_cases (items : List (Except String String))
    (h : hasErrBeforeSentinel items = true) :
    (∃ e rest, read_single_basis_set_line items = (.error e, rest)) ∨
    (∃ s rest, read_single_basis_set_line items = (.ok (some s), rest) ∧
      hasErrBeforeSentinel rest = true) := by
  induction items with
  | nil => cases h
  | cons item rest ih =>
    cases item with
    | error e => exact Or.inl ⟨e, rest, rfl⟩
    | ok s =>
      have hsb : isSentinel s = false ∧ hasErrBeforeSentinel rest = true := by
        simpa [hasErrBeforeSentinel] using h
      by_cases hsk : isSkippable s = true
      · rcases ih hsb.2 with ⟨e, r, heq⟩ | ⟨t, r, heq, hr⟩
        · exact Or.inl ⟨e, r, by simp [read_single_basis_set_line, hsk, heq]⟩
        · exact Or.inr ⟨t, r, by simp [read_single_basis_set_line, hsk, heq], hr⟩
      · refine Or.inr ⟨s, rest, ?_, hsb.2⟩
        simp [read_single_basis_set_line, hsk, hsb.1]

lemma read_primitive_lines_cases (n : Nat) :
    ∀ items, hasErrBeforeSentinel items = true →
      (∃ e rest, read_primitive_lines n items = (.error e, rest)) ∨
      (∃ rows rest, read_primitive_lines n items = (.ok rows, rest) ∧
        hasErrBeforeSentinel rest = true) := by
  induction n with
  | zero => intro items h; exact Or.inr ⟨[], items, rfl, h⟩
  | succ n ih =>
    intro items h
    rcases read_single_cases items h with ⟨e, rest, heq⟩ | ⟨s, rest, heq, hr⟩
    · exact Or.inl ⟨e, rest, by simp [read_primitive_lines, heq]⟩
    · cases hp : parse_floats (some s) with
      | error m =>
        exact Or.inl ⟨m, rest, by simp [read_primitive_lines, heq, hp]⟩
      | ok row =>
        rcases ih rest hr with ⟨e2, r2, hrec⟩ | ⟨rows, r2, hrec, hr2⟩
        · exact Or.inl ⟨e2, r2, by simp [read_primitive_lines, heq, hp, hrec]⟩
        · exact Or.inr ⟨row :: rows, r2,
            by simp [read_primitive_lines, heq, hp, hrec], hr2⟩

lemma cgto_loop_no_ok :
    ∀ (fuel : Nat) (bs : AtomicBasisSet) items,
      hasErrBeforeSentinel items = true →
      ∀ bs2, cgto_loop fuel bs items ≠ .ok bs2 := by
  intro fuel
  induction fuel with
  | zero => intro bs items h bs2; simp [cgto_loop]
  | succ fuel ih =>
    intro bs items h bs2
    rcases read_single_cases items h with ⟨e, rest, heq⟩ | ⟨s, rest, heq, hr⟩
    · simp [cgto_loop, heq]
    · cases hc : parse_cgto_first_line (some s) with
      | error e2 => simp [cgto_loop, heq, hc]
      | ok pr =>
        rcases pr with ⟨ams, n⟩
        rcases read_primitive_lines_cases n.toNat rest hr with
          ⟨e3, r3, hp⟩ | ⟨rows, r3, hp, hr3⟩
        · simp [cgto_loop, heq, hc, hp]
        · cases ha : add_basis_set_cgto bs ams rows with
          | none => simp [cgto_loop, heq, hc, hp, ha]
          | some bs3 =>
            simp only [cgto_loop, heq, hc, hp, ha]
            exact ih bs3 r3 hr3 bs2

/-- C4: the parse fails atomically.  Whenever the line source fails
before any sentinel is reached, read_basis_set never returns a result
pair — no partial or degraded (assignment target, basis set) value is
observable (an error outcome carries only a message by construction) —
and a line-source failure aborts the significant-line read immediately,
the parse error wrapping the underlying failure message verbatim. -/
theorem C4_atomic_failure :
    (∀ items, hasErrBeforeSentinel items = true →
      ∀ r, read_basis_set items ≠ .ok r)
    ∧ (∀ (pre : List String) (e : String)
        (rest : List (Except String String)),
        (∀ s ∈ pre, isSkippable s = true) →
        read_single_basis_set_line
            (pre.map Except.ok ++ .error e :: rest) =
          (.error e, rest)) := by
  constructor
  · intro items h r
    rcases read_single_cases items h with ⟨e, rest, heq⟩ | ⟨s, rest, heq, hr⟩
    · simp [read_basis_set, heq]
    · cases hf : parse_basis_set_first_line (some s) with
      | error e2 => simp [read_basis_set, heq, hf]
      | ok at0 =>
        cases hcl : cgto_loop (items.length + 1) AtomicBasisSet.new rest with
        | ok bs => exact absurd hcl (cgto_loop_no_ok _ _ rest hr bs)
        | error e3 => simp [read_basis_set, heq, hf, hcl]
        | oob => simp [read_basis_set, heq, hf, hcl]
  · intro pre
    induction pre with
    | nil => intro e rest _; rfl
    | cons s pre ih =>
      intro e rest hall
      have hs : isSkippable s = true := hall s (List.mem_cons_self s pre)
      have hrest : ∀ t ∈ pre, isSkippable t = true := fun t ht =>
        hall t (List.mem_cons_of_mem s ht)
      simp only [List.map_cons, List.cons_append, read_single_basis_set_line,
        hs, if_true]
      exact ih e rest hrest

/-- C4 witness: a failing first item makes the parse fail (it is not the
ok pair), and a failure behind a comment line aborts the read with the
wrapped message. -/
theorem C4_atomic_failure_witness :
    read_basis_set [Except.error "io failure"] ≠
      .ok (.Atom "C", AtomicBasisSet.new)
    ∧ read_single_basis_set_line
        [Except.ok "! comment", Except.error "io failure"] =
      (.error "io failure", []) :=
  ⟨C4_atomic_failure.1 [Except.error "io failure"] (by decide) _,
    C4_atomic_failure.2 ["! comment"] "io failure" [] (by decide)⟩

/-- C8: the assignment header is decided by the first whitespace token
of the first significant line — an i32 token yields ParticleIndex with
that value, any other token yields Atom with the token stored verbatim
("1 0" gives ParticleIndex 1, "C 0" gives Atom "C") — and a missing
header line, a token-less header line, or a stream with no significant
line before the sentinel is a parse error. -/
theorem C8_assignment_header :
    parse_basis_set_first_line none = .error "Bad basis set"
    ∧ (∀ s : String, splitWhitespace s = [] →
        parse_basis_set_first_line (some s) =
          .error "Expect atom/particle index")
    ∧ (∀ (s : String) (t : List Char) (ts : List (List Char)),
        splitWhitespace s = t :: ts →
        (∀ v, parseI32 t = some v →
          parse_basis_set_first_line (some s) = .ok (.ParticleIndex v))
        ∧ (parseI32 t = none →
          parse_basis_set_first_line (some s) = .ok (.Atom (String.mk t))))
    ∧ parse_basis_set_first_line (some "1 0") = .ok (.ParticleIndex 1)
    ∧ parse_basis_set_first_line (some "C 0") = .ok (.Atom "C")
    ∧ read_basis_set [Except.ok "! only a comment", Except.ok "****"] =
        .error "Bad basis set" := by
  refine ⟨rfl, ?_, ?_, by decide, by decide, by decide⟩
  · intro s h
    simp [parse_basis_set_first_line, h]
  · intro s t ts h
    constructor
    · intro v hv
      simp [parse_basis_set_first_line, h, hv]
    · intro hn
      simp [parse_basis_set_first_line, h, hn]

/-- C8 witness: the theorem applied at a blank header line (no token), at
"1 0" and at "C 0". -/
theorem C8_assignment_header_witness :
    parse_basis_set_first_line (some "   ") =
      .error "Expect atom/particle index"
    ∧ parse_basis_set_first_line (some "1 0") = .ok (.ParticleIndex 1)
    ∧ parse_basis_set_first_line (some "C 0") = .ok (.Atom "C") :=
  ⟨C8_assignment_header.2.1 "   " (by decide),
    (C8_assignment_header.2.2.1 "1 0" ['1'] [['0']] (by decide)).1 1
      (by decide),
    (C8_assignment_header.2.2.1 "C 0" ['C'] [['0']] (by decide)).2
      (by decide)⟩

/-- C9: from_char maps the twelve momentum letters case-insensitively to
S..H and every other character to Unsupported; from_index maps 0..5 to
S..H and every other index to Unsupported; both are pure total
functions. -/
theorem C9_momentum_conversions_total :
    (['S', 's', 'P', 'p', 'D', 'd', 'F', 'f', 'G', 'g', 'H', 'h'].map
        AngularMomentum.fromChar) =
      [.S, .S, .P, .P, .D, .D, .F, .F, .G, .G, .H, .H]
    ∧ ((List.range 6).map AngularMomentum.fromIndex) =
      [.S, .P, .D, .F, .G, .H]
    ∧ (∀ c : Char,
        c ∉ (['S', 's', 'P', 'p', 'D', 'd', 'F', 'f', 'G', 'g', 'H', 'h'] :
          List Char) →
        AngularMomentum.fromChar c = .UnsupportedAngularMomentum)
    ∧ (∀ n : Nat, 5 < n →
        AngularMomentum.fromIndex n = .UnsupportedAngularMomentum) := by
  refine ⟨by decide, by decide, ?_, ?_⟩
  · intro c hc
    simp only [List.mem_cons, List.not_mem_nil, or_false, not_or] at hc
    obtain ⟨h1, h2, h3, h4, h5, h6, h7, h8, h9, h10, h11, h12⟩ := hc
    simp [AngularMomentum.fromChar, h1, h2, h3, h4, h5, h6, h7, h8, h9,
      h10, h11, h12]
  · intro n hn
    obtain ⟨m, rfl⟩ : ∃ m, n = m + 6 := ⟨n - 6, by omega⟩
    rfl

/-- C9 witness: the theorem applied at the unsupported letter T and the
unsupported index 6. -/
theorem C9_momentum_conversions_witness :
    AngularMomentum.fromChar 'T' = .UnsupportedAngularMomentum
    ∧ AngularMomentum.fromIndex 6 = .UnsupportedAngularMomentum :=
  ⟨C9_momentum_conversions_total.2.2.1 'T' (by decide),
    C9_momentum_conversions_total.2.2.2 6 (by decide)⟩
